import Mathlib

/-!
Verification development for `codegen/style/generator.cpp` (the style/palette
code generator of Telegram Desktop).

The generator emits, as C++ text, a `palette` class together with helper
routines (`compute`, `finalize`, `setData`, `save`, `load`, `operator=`, a
`getPaletteIndex` name matcher), a CRC-32 based checksum of the palette
declaration, a unique-pixel-value collector and an icon-atlas compositor.
This file gives a shallow embedding of those routines, translated directly
from the emitted code and from the generator's own helpers, and proves the
behavioural properties stated in the design document about them.

Machine integers are modelled as `Nat`/`Int` with explicit `% 2 ^ 32`
wherever an overflowing 32-bit operation occurs.  C++ loops are modelled as
structurally recursive functions whose first argument is the loop's
iteration count (the exact number of times the source loop runs), so that
every definition is executable by kernel reduction.
-/

namespace StyleGen

/-! ## Palette data model

The generated palette (see `Generator::writePaletteDefinition`) keeps, per
color slot, a status (`Initial`, `Created`, `Loaded`) and a raw storage cell
`_data` holding a constructed `internal::ColorData` when the status (or a
placement-new that forgot to update it) says so.  We model the storage cell
as an `Option ColorData`: `none` is "never constructed / destroyed". -/

/-- One `internal::ColorData`: four 8-bit colour channels. -/
structure ColorData where
  red : Nat
  green : Nat
  blue : Nat
  alpha : Nat
deriving DecidableEq

/-- The generated `enum class Status { Initial, Created, Loaded }`. -/
inductive Status where
  | Initial
  | Created
  | Loaded
deriving DecidableEq

/-- One palette slot: its `_status[i]` entry plus the contents of its raw
storage cell `data(i)`. -/
structure Slot where
  status : Status
  mem : Option ColorData
deriving DecidableEq

/-- One palette colour declaration as baked into the generated code: the
variable's name (as a byte string), the `copyOf` alias name if the value is
an alias (used by `valueAssignmentCode`), the generation-time resolved
`fallbackIndex` passed to `compute` (−1 when the fallback name was not yet
registered), and the literal default channels. -/
structure ColorSpec where
  name : List Nat
  copyOfName : Option (List Nat)
  fallbackIndex : Int
  value : ColorData
deriving DecidableEq

/-- Placeholder spec used only for out-of-range list reads. -/
def dfltSpec : ColorSpec := ⟨[], none, -1, ⟨0, 0, 0, 0⟩⟩

/-- The palette object: the slot array plus the `_ready` flag. -/
structure Palette where
  slots : List Slot
  ready : Bool
deriving DecidableEq

/-- A never-constructed slot (`Status::Initial`, nothing in storage). -/
def emptySlot : Slot := ⟨Status.Initial, none⟩

/-- Read slot `i` (out-of-range reads return the empty slot). -/
def slotOf (p : Palette) (i : Nat) : Slot := p.slots.getD i emptySlot

/-- Write slot `i` (out-of-range writes are dropped, as `List.set`). -/
def setSlot (p : Palette) (i : Nat) (s : Slot) : Palette :=
  { p with slots := p.slots.set i s }

/-- A default-constructed palette with `n` slots: all `Initial`, not ready. -/
def freshPalette (n : Nat) : Palette := ⟨List.replicate n emptySlot, false⟩

/-! ## Generated palette member functions -/

/-- The generated `palette::compute(index, fallbackIndex, value)`:

    if (_status[index] == Status::Initial) {
      if (fallbackIndex >= 0 && _status[fallbackIndex] != Status::Initial) {
        _status[index] = Status::Loaded;
        new (data(index)) internal::ColorData(*data(fallbackIndex));
      } else {
        _status[index] = Status::Created;
        new (data(index)) internal::ColorData(value.r, value.g, value.b, value.a);
      }
    } -/
def compute (p : Palette) (index : Nat) (fallbackIndex : Int) (value : ColorData) : Palette :=
  if (slotOf p index).status = Status.Initial then
    if 0 ≤ fallbackIndex ∧ (slotOf p fallbackIndex.toNat).status ≠ Status.Initial then
      setSlot p index ⟨Status.Loaded, (slotOf p fallbackIndex.toNat).mem⟩
    else
      setSlot p index ⟨Status.Created, some value⟩
  else p

/-- The body of the generated `palette::finalize()`: the straight-line
sequence `compute(i, fallbackIndex_i, value_i)` for `i = j, j+1, ...`,
running `fuel` of the calls.  `finalize` invokes it with `j = 0` and
`fuel = decl.length`, exactly the emitted call sequence. -/
def computeAll (decl : List ColorSpec) : Nat → Nat → Palette → Palette
  | 0, _, p => p
  | fuel + 1, i, p =>
    computeAll decl fuel (i + 1)
      (compute p i (decl.getD i dfltSpec).fallbackIndex (decl.getD i dfltSpec).value)

/-- The generated `palette::finalize()`:

    if (_ready) return;
    _ready = true;
    compute(0, f_0, v_0); compute(1, f_1, v_1); ... -/
def finalize (decl : List ColorSpec) (p : Palette) : Palette :=
  if p.ready then p
  else computeAll decl decl.length 0 { p with ready := true }

/-- The generated `palette::setData(index, value)`: both the placement-new
branch (`_status == Initial`) and the assignment branch store `value` into
the cell, and the status is set to `Loaded` unconditionally. -/
def setData (p : Palette) (index : Nat) (value : ColorData) : Palette :=
  setSlot p index ⟨Status.Loaded, some value⟩

/-- The loop body of the generated `palette::save()`: for `fuel` slots
starting at `i`, append the four channels of `data(i)` cast to `uchar`
(modelled as `% 256`), in order red, green, blue, alpha. -/
def saveAll (q : Palette) : Nat → Nat → List Nat
  | 0, _ => []
  | fuel + 1, i =>
    let c := (slotOf q i).mem.getD ⟨0, 0, 0, 0⟩
    c.red % 256 :: c.green % 256 :: c.blue % 256 :: c.alpha % 256 ::
      saveAll q fuel (i + 1)

/-- The generated `palette::save()`:

    if (!_ready) const_cast<palette*>(this)->finalize();
    // 4 bytes per colour, ascending index, r g b a
(`finalize` already returns an untouched palette when `_ready`). -/
def save (decl : List ColorSpec) (p : Palette) : List Nat :=
  saveAll (finalize decl p) decl.length 0

/-- The loop body of the generated `palette::load(cache)`: for `fuel`
slots starting at `i`, `setData(i, { p[i*4+0], p[i*4+1], p[i*4+2], p[i*4+3] })`. -/
def loadAll (cache : List Nat) : Nat → Nat → Palette → Palette
  | 0, _, p => p
  | fuel + 1, i, p =>
    loadAll cache fuel (i + 1)
      (setData p i ⟨cache.getD (i * 4) 0, cache.getD (i * 4 + 1) 0,
        cache.getD (i * 4 + 2) 0, cache.getD (i * 4 + 3) 0⟩)

/-- The generated `palette::load(cache)`:

    if (cache.size() != 4 * count) return false;
    for each slot setData(...); return true;
The returned pair is (return value, palette after the call). -/
def load (decl : List ColorSpec) (p : Palette) (cache : List Nat) : Bool × Palette :=
  if cache.length ≠ 4 * decl.length then (false, p)
  else (true, loadAll cache decl.length 0 p)

/-- One iteration of the loop in the generated `palette::operator=`:

    if (other._status[i] == Status::Loaded) {
      if (_status[i] == Status::Initial) {
        new (data(i)) internal::ColorData(*other.data(i));
      } else {
        *data(i) = *other.data(i);
      }
    } else if (_status[i] != Status::Initial) {
      data(i)->~ColorData();
      _status[i] = Status::Initial;
      _ready = false;
    }
Note that the copy branch stores into the cell but leaves `_status[i]`
unchanged. -/
def assignStep (p other : Palette) (i : Nat) : Palette :=
  if (slotOf other i).status = Status.Loaded then
    setSlot p i ⟨(slotOf p i).status, (slotOf other i).mem⟩
  else if (slotOf p i).status ≠ Status.Initial then
    { setSlot p i ⟨Status.Initial, none⟩ with ready := false }
  else p

/-- The whole `for` loop of the generated `palette::operator=`. -/
def assignAll (other : Palette) : Nat → Nat → Palette → Palette
  | 0, _, p => p
  | fuel + 1, i, p => assignAll other fuel (i + 1) (assignStep p other i)

/-- The loop of `operator=` run over all `count` slots. -/
def assignLoop (decl : List ColorSpec) (p other : Palette) : Palette :=
  assignAll other decl.length 0 p

/-- The generated `palette::operator=(const palette &other)`:

    auto wasReady = _ready;
    for (...) { ... }
    if (wasReady && !_ready) finalize(); -/
def assignPalette (decl : List ColorSpec) (p other : Palette) : Palette :=
  let wasReady := p.ready
  let q := assignLoop decl p other
  if wasReady = true ∧ q.ready = false then finalize decl q else q

/-! ## Basic palette lemmas -/

theorem slotOf_setSlot_self (p : Palette) (i : Nat) (s : Slot) (h : i < p.slots.length) :
    slotOf (setSlot p i s) i = s := by
  simp [slotOf, setSlot, List.getD, List.getElem?_set_self', h]

theorem slotOf_setSlot_ne (p : Palette) (i j : Nat) (s : Slot) (h : j ≠ i) :
    slotOf (setSlot p j s) i = slotOf p i := by
  simp [slotOf, setSlot, List.getD, List.getElem?_set_ne h]

theorem slots_length_setSlot (p : Palette) (i : Nat) (s : Slot) :
    (setSlot p i s).slots.length = p.slots.length := by
  simp [setSlot]

theorem slots_length_compute (p : Palette) (i : Nat) (f : Int) (v : ColorData) :
    (compute p i f v).slots.length = p.slots.length := by
  unfold compute
  split
  · split <;> simp [slots_length_setSlot]
  · rfl

theorem ready_compute (p : Palette) (i : Nat) (f : Int) (v : ColorData) :
    (compute p i f v).ready = p.ready := by
  unfold compute
  split
  · split <;> simp [setSlot]
  · rfl

theorem slots_length_computeAll (decl : List ColorSpec) (fuel i : Nat) (p : Palette) :
    (computeAll decl fuel i p).slots.length = p.slots.length := by
  induction fuel generalizing i p with
  | zero => rfl
  | succ n ih => simp [computeAll, ih, slots_length_compute]

theorem ready_computeAll (decl : List ColorSpec) (fuel i : Nat) (p : Palette) :
    (computeAll decl fuel i p).ready = p.ready := by
  induction fuel generalizing i p with
  | zero => rfl
  | succ n ih => simp [computeAll, ih, ready_compute]

/-- `compute` at index `j ≠ i` leaves slot `i` unchanged. -/
theorem slotOf_compute_ne (p : Palette) (i j : Nat) (f : Int) (v : ColorData) (h : j ≠ i) :
    slotOf (compute p j f v) i = slotOf p i := by
  unfold compute
  split
  · split <;> exact slotOf_setSlot_ne p i j _ h
  · rfl

/-- The `compute` calls for indices `≥ j` leave any slot `i < j` unchanged. -/
theorem slotOf_computeAll_lt (decl : List ColorSpec) (fuel i j : Nat) (p : Palette)
    (h : i < j) : slotOf (computeAll decl fuel j p) i = slotOf p i := by
  induction fuel generalizing j p with
  | zero => rfl
  | succ n ih =>
    rw [computeAll, ih (j + 1) _ (by omega), slotOf_compute_ne p i j _ _ (by omega)]

/-- The `compute` calls for indices `j, ..., j+fuel-1` leave any slot
`i ≥ j + fuel` unchanged. -/
theorem slotOf_computeAll_ge (decl : List ColorSpec) (fuel i j : Nat) (p : Palette)
    (h : j + fuel ≤ i) : slotOf (computeAll decl fuel j p) i = slotOf p i := by
  induction fuel generalizing j p with
  | zero => rfl
  | succ n ih =>
    rw [computeAll, ih (j + 1) _ (by omega), slotOf_compute_ne p i j _ _ (by omega)]

/-- Splitting the straight-line `compute` sequence. -/
theorem computeAll_split (decl : List ColorSpec) (a b j : Nat) (p : Palette) :
    computeAll decl (a + b) j p = computeAll decl b (j + a) (computeAll decl a j p) := by
  induction a generalizing j p with
  | zero => simp [computeAll]
  | succ n ih =>
    have : n + 1 + b = (n + b) + 1 := by omega
    rw [this, computeAll, computeAll, ih]
    have : j + 1 + n = j + (n + 1) := by omega
    rw [this]

/-- `compute` never touches a slot that is not `Initial`. -/
theorem slotOf_compute_nonInitial (p : Palette) (i j : Nat) (f : Int) (v : ColorData)
    (h : (slotOf p i).status ≠ Status.Initial) :
    slotOf (compute p j f v) i = slotOf p i := by
  by_cases hji : j = i
  · subst hji
    unfold compute
    rw [if_neg h]
  · exact slotOf_compute_ne p i j f v hji

/-- The whole `compute` sequence never touches a slot that is not `Initial`. -/
theorem slotOf_computeAll_nonInitial (decl : List ColorSpec) (fuel i j : Nat) (p : Palette)
    (h : (slotOf p i).status ≠ Status.Initial) :
    slotOf (computeAll decl fuel j p) i = slotOf p i := by
  induction fuel generalizing j p with
  | zero => rfl
  | succ n ih =>
    rw [computeAll]
    rw [ih (j + 1) _ (by rw [slotOf_compute_nonInitial p i j _ _ h]; exact h),
      slotOf_compute_nonInitial p i j _ _ h]

theorem slotOf_mk_ready (p : Palette) (b : Bool) (i : Nat) :
    slotOf { p with ready := b } i = slotOf p i := rfl

/-- `finalize` always leaves the palette ready. -/
theorem ready_finalize (decl : List ColorSpec) (p : Palette) :
    (finalize decl p).ready = true := by
  unfold finalize
  split
  · assumption
  · rw [ready_computeAll]

/-! ## Claim theorems: C5, C4, C10 -/

/-- Claim C5: for every palette state, calling `finalize()` twice in a row
is idempotent — the second call mutates nothing (the whole palette state,
slot values, statuses and the `_ready` flag included, is unchanged) — and
`finalize` never overwrites a `Loaded` slot. -/
theorem finalize_idempotent (decl : List ColorSpec) (p : Palette) :
    finalize decl (finalize decl p) = finalize decl p ∧
    ∀ i : Nat, (slotOf p i).status = Status.Loaded →
      slotOf (finalize decl p) i = slotOf p i := by
  constructor
  · unfold finalize
    split
    · rfl
    · rw [if_pos]
      rw [ready_computeAll]
  · intro i hi
    unfold finalize
    split
    · rfl
    · rw [slotOf_computeAll_nonInitial]
      · rfl
      · rw [slotOf_mk_ready, hi]
        intro hcontra
        exact Status.noConfusion hcontra

/-- Concrete palette declarations used as witnesses below. -/
def declW1 : List ColorSpec := [⟨[97], none, -1, ⟨1, 2, 3, 4⟩⟩]

/-- A one-slot palette whose slot is `Loaded`. -/
def palW1 : Palette := ⟨[⟨Status.Loaded, some ⟨9, 8, 7, 6⟩⟩], true⟩

theorem finalize_idempotent_witness :
    finalize declW1 (finalize declW1 palW1) = finalize declW1 palW1 ∧
    slotOf (finalize declW1 palW1) 0 = slotOf palW1 0 :=
  ⟨(finalize_idempotent declW1 palW1).1,
    (finalize_idempotent declW1 palW1).2 0 (by decide)⟩

/-- Claim C4: `load` returns `false` and performs no mutation whenever the
buffer length differs from `4 × N`. -/
theorem load_rejects_bad_length (decl : List ColorSpec) (p : Palette) (cache : List Nat)
    (h : cache.length ≠ 4 * decl.length) :
    load decl p cache = (false, p) := by
  unfold load
  rw [if_pos h]

/-- A three-colour declaration (`N = 3`), as in the design document's
`load` length example. -/
def declW3 : List ColorSpec :=
  [⟨[97], none, -1, ⟨1, 1, 1, 255⟩⟩,
   ⟨[98], none, -1, ⟨2, 2, 2, 255⟩⟩,
   ⟨[99], none, -1, ⟨3, 3, 3, 255⟩⟩]

theorem load_rejects_bad_length_witness :
    load declW3 (freshPalette 3) [0, 1, 2, 3, 4, 5, 6, 7, 8, 9, 10, 11, 12] =
      (false, freshPalette 3) :=
  load_rejects_bad_length declW3 (freshPalette 3) _ (by decide)

/-! Lemmas about `loadAll` for C10 and C3. -/

theorem slots_length_setData (p : Palette) (i : Nat) (v : ColorData) :
    (setData p i v).slots.length = p.slots.length := by
  simp [setData, slots_length_setSlot]

theorem slots_length_loadAll (cache : List Nat) (fuel i : Nat) (p : Palette) :
    (loadAll cache fuel i p).slots.length = p.slots.length := by
  induction fuel generalizing i p with
  | zero => rfl
  | succ n ih => simp [loadAll, ih, slots_length_setData]

theorem ready_loadAll (cache : List Nat) (fuel i : Nat) (p : Palette) :
    (loadAll cache fuel i p).ready = p.ready := by
  induction fuel generalizing i p with
  | zero => rfl
  | succ n ih => simp [loadAll, ih, setData, setSlot]

theorem slotOf_loadAll_lt (cache : List Nat) (fuel i j : Nat) (p : Palette)
    (h : i < j) : slotOf (loadAll cache fuel j p) i = slotOf p i := by
  induction fuel generalizing j p with
  | zero => rfl
  | succ n ih =>
    rw [loadAll, ih (j + 1) _ (by omega)]
    exact slotOf_setSlot_ne p i j _ (by omega)

/-- After the `load` loop, every slot in range holds the corresponding four
cache bytes and is `Loaded`. -/
theorem slotOf_loadAll (cache : List Nat) (fuel i j : Nat) (p : Palette)
    (hlo : j ≤ i) (hhi : i < j + fuel) (hlen : i < p.slots.length) :
    slotOf (loadAll cache fuel j p) i =
      ⟨Status.Loaded, some ⟨cache.getD (i * 4) 0, cache.getD (i * 4 + 1) 0,
        cache.getD (i * 4 + 2) 0, cache.getD (i * 4 + 3) 0⟩⟩ := by
  induction fuel generalizing j p with
  | zero => omega
  | succ n ih =>
    rw [loadAll]
    by_cases hji : i = j
    · subst hji
      rw [slotOf_loadAll_lt cache n i (i + 1) _ (by omega)]
      exact slotOf_setSlot_self p i _ hlen
    · rw [ih (j + 1) _ (by omega) (by omega)
        (by rw [slots_length_setData]; exact hlen)]

/-- Claim C10: after every successful `load` (one that returned `true`),
every slot is in status `Loaded`, regardless of its prior status and of
whether `finalize` had ever run: `setData` marks the written slot `Loaded`
unconditionally. -/
theorem load_marks_all_loaded (decl : List ColorSpec) (p : Palette) (cache : List Nat)
    (hlen : p.slots.length = decl.length)
    (h : (load decl p cache).1 = true) :
    ∀ i : Nat, i < decl.length →
      (slotOf ((load decl p cache).2) i).status = Status.Loaded := by
  intro i hi
  unfold load at h ⊢
  by_cases hc : cache.length ≠ 4 * decl.length
  · rw [if_pos hc] at h
    simp at h
  · rw [if_neg hc]
    simp only
    rw [slotOf_loadAll cache decl.length i 0 p (by omega) (by omega) (by omega)]

/-- A one-slot palette that was already finalized, with a `Created` slot. -/
def palW1c : Palette := ⟨[⟨Status.Created, some ⟨1, 2, 3, 4⟩⟩], true⟩

theorem load_marks_all_loaded_witness :
    (slotOf ((load declW1 palW1c [40, 41, 42, 43]).2) 0).status = Status.Loaded :=
  load_marks_all_loaded declW1 palW1c [40, 41, 42, 43] (by decide) (by decide) 0
    (by decide)

/-! ## Claim C1: the fallback rule of `finalize` -/

/-- Two colours: slot 0 is `a = #111111` with no fallback; slot 1 is
`b = #222222` with fallback name `a`, whose generation-time resolved
`fallbackIndex` is `0`. -/
def declC1 : List ColorSpec :=
  [⟨[97], none, -1, ⟨17, 17, 17, 255⟩⟩,
   ⟨[98], none, 0, ⟨34, 34, 34, 255⟩⟩]

/-- Claim C1 counterexample: on a fresh palette (both slots Uninitialized,
so slot 0 is never `Loaded` at any point of the first `finalize`), slot 1
does NOT receive its declared literal default `{34, 34, 34, 255}` as the
claim requires; it receives a copy of slot 0's value `{17, 17, 17, 255}`
(and is even marked `Loaded`), because the generated `compute` copies the
fallback whenever the target's status is merely not `Initial` — and slot 0
has just been `Created` earlier in the same pass. -/
theorem finalize_fallback_counterexample :
    (slotOf (finalize declC1 (freshPalette 2)) 1).mem ≠
      some (ColorData.mk 34 34 34 255) ∧
    slotOf (finalize declC1 (freshPalette 2)) 1 =
      ⟨Status.Loaded, some (ColorData.mk 17 17 17 255)⟩ ∧
    (slotOf (freshPalette 2) 0).status ≠ Status.Loaded ∧
    (slotOf (computeAll declC1 1 0 { freshPalette 2 with ready := true }) 0).status =
      Status.Created := by
  refine ⟨?_, ?_, ?_, ?_⟩ <;> decide

/-- The palette state right before slot `i`'s own `compute` call runs
during a non-trivial `finalize`: `_ready` already set, the `compute` calls
for slots `0, ..., i-1` already executed. -/
def computeUpTo (decl : List ColorSpec) (i : Nat) (p : Palette) : Palette :=
  computeAll decl i 0 { p with ready := true }

/-- Claim C1 (amended): on the first `finalize` call, every slot that is
Uninitialized is computed in declaration order; such a slot receives a copy
of its fallback target's current value (and is marked `Loaded`) whenever
its declaration resolved a fallback index `≥ 0` and the target slot is not
Uninitialized *at the moment the slot is processed* — which holds whenever
the target was itself computed earlier in the same pass, not only when it
was already `Loaded`; otherwise the slot is set to its declared literal
default and marked `Created`. -/
theorem finalize_slot_rule (decl : List ColorSpec) (p : Palette)
    (hlen : p.slots.length = decl.length) (hp : p.ready = false)
    (i : Nat) (hi : i < decl.length) :
    slotOf (finalize decl p) i =
      (if (slotOf p i).status = Status.Initial then
         if 0 ≤ (decl.getD i dfltSpec).fallbackIndex ∧
             (slotOf (computeUpTo decl i p)
               (decl.getD i dfltSpec).fallbackIndex.toNat).status ≠ Status.Initial then
           ⟨Status.Loaded, (slotOf (computeUpTo decl i p)
             (decl.getD i dfltSpec).fallbackIndex.toNat).mem⟩
         else
           ⟨Status.Created, some (decl.getD i dfltSpec).value⟩
       else slotOf p i) := by
  have hqi : slotOf (computeUpTo decl i p) i = slotOf p i := by
    rw [computeUpTo, slotOf_computeAll_ge decl i i 0 _ (by omega), slotOf_mk_ready]
  have hqlen : (computeUpTo decl i p).slots.length = decl.length := by
    rw [computeUpTo, slots_length_computeAll]
    exact hlen
  have h1 := computeAll_split decl i (1 + (decl.length - i - 1)) 0 { p with ready := true }
  rw [show i + (1 + (decl.length - i - 1)) = decl.length by omega] at h1
  rw [show computeAll decl i 0 { p with ready := true } = computeUpTo decl i p from rfl] at h1
  have h2 := computeAll_split decl 1 (decl.length - i - 1) (0 + i) (computeUpTo decl i p)
  have hfin : finalize decl p =
      computeAll decl (decl.length - i - 1) (0 + i + 1)
        (computeAll decl 1 (0 + i) (computeUpTo decl i p)) := by
    unfold finalize
    rw [if_neg (by rw [hp]; exact Bool.false_ne_true)]
    rw [h1, h2]
  rw [hfin, slotOf_computeAll_lt decl (decl.length - i - 1) i (0 + i + 1) _ (by omega)]
  have hone : computeAll decl 1 (0 + i) (computeUpTo decl i p) =
      compute (computeUpTo decl i p) i (decl.getD i dfltSpec).fallbackIndex
        (decl.getD i dfltSpec).value := by
    rw [Nat.zero_add]
    rfl
  rw [hone]
  unfold compute
  rw [hqi]
  by_cases h1 : (slotOf p i).status = Status.Initial
  · rw [if_pos h1, if_pos h1]
    by_cases h2 : 0 ≤ (decl.getD i dfltSpec).fallbackIndex ∧
        (slotOf (computeUpTo decl i p)
          (decl.getD i dfltSpec).fallbackIndex.toNat).status ≠ Status.Initial
    · rw [if_pos h2, if_pos h2]
      exact slotOf_setSlot_self _ i _ (by omega)
    · rw [if_neg h2, if_neg h2]
      exact slotOf_setSlot_self _ i _ (by omega)
  · rw [if_neg h1, if_neg h1]
    exact hqi

theorem finalize_slot_rule_witness :
    slotOf (finalize declC1 (freshPalette 2)) 1 =
      (if (slotOf (freshPalette 2) 1).status = Status.Initial then
         if 0 ≤ (declC1.getD 1 dfltSpec).fallbackIndex ∧
             (slotOf (computeUpTo declC1 1 (freshPalette 2))
               (declC1.getD 1 dfltSpec).fallbackIndex.toNat).status ≠ Status.Initial then
           ⟨Status.Loaded, (slotOf (computeUpTo declC1 1 (freshPalette 2))
             (declC1.getD 1 dfltSpec).fallbackIndex.toNat).mem⟩
         else
           ⟨Status.Created, some (declC1.getD 1 dfltSpec).value⟩
       else slotOf (freshPalette 2) 1) :=
  finalize_slot_rule declC1 (freshPalette 2) (by decide) (by decide) 1 (by decide)

/-! ## Claim C2: whole-palette assignment -/

theorem slots_length_assignStep (p other : Palette) (i : Nat) :
    (assignStep p other i).slots.length = p.slots.length := by
  unfold assignStep
  split
  · simp [slots_length_setSlot]
  · split
    · simp [setSlot]
    · rfl

theorem slots_length_assignAll (other : Palette) (fuel i : Nat) (p : Palette) :
    (assignAll other fuel i p).slots.length = p.slots.length := by
  induction fuel generalizing i p with
  | zero => rfl
  | succ n ih => simp [assignAll, ih, slots_length_assignStep]

theorem slotOf_assignStep_ne (p other : Palette) (i j : Nat) (h : j ≠ i) :
    slotOf (assignStep p other j) i = slotOf p i := by
  unfold assignStep
  split
  · exact slotOf_setSlot_ne p i j _ h
  · split
    · show slotOf { setSlot p j _ with ready := false } i = _
      rw [slotOf_mk_ready]
      exact slotOf_setSlot_ne p i j _ h
    · rfl

theorem slotOf_assignAll_lt (other : Palette) (fuel i j : Nat) (p : Palette)
    (h : i < j) : slotOf (assignAll other fuel j p) i = slotOf p i := by
  induction fuel generalizing j p with
  | zero => rfl
  | succ n ih =>
    rw [assignAll, ih (j + 1) _ (by omega), slotOf_assignStep_ne p other i j (by omega)]

/-- Splitting the assignment loop. -/
theorem assignAll_split (other : Palette) (a b j : Nat) (p : Palette) :
    assignAll other (a + b) j p = assignAll other b (j + a) (assignAll other a j p) := by
  induction a generalizing j p with
  | zero => simp [assignAll]
  | succ n ih =>
    have h1 : n + 1 + b = (n + b) + 1 := by omega
    rw [h1, assignAll, assignAll, ih]
    have h2 : j + 1 + n = j + (n + 1) := by omega
    rw [h2]

/-- Slot `i` of the assignment-loop state before step `i` is the original
destination slot (earlier steps touch only smaller indices). -/
theorem slotOf_assignAll_prefix (other : Palette) (k i j : Nat) (p : Palette)
    (h : j + k ≤ i) : slotOf (assignAll other k j p) i = slotOf p i := by
  induction k generalizing j p with
  | zero => rfl
  | succ n ih =>
    rw [assignAll, ih (j + 1) _ (by omega), slotOf_assignStep_ne p other i j (by omega)]

/-- Claim C2: palette whole-object assignment.  For every slot index `i`:
if the source slot is `Loaded`, its value is copied (constructed or
assigned) into the destination cell; if the source slot is Uninitialized,
the destination slot ends Uninitialized, and if the destination previously
held a constructed value (status not `Initial`), that value is destroyed
(the cell is emptied).  Finally, if the destination was finalized before
the assignment and the per-slot loop left the palette not ready (some slot
was reset to Uninitialized), `finalize` is re-run before `operator=`
returns. -/
theorem assign_rule (decl : List ColorSpec) (p other : Palette)
    (hlen : p.slots.length = decl.length) :
    (∀ i : Nat, i < decl.length → (slotOf other i).status = Status.Loaded →
      (slotOf (assignLoop decl p other) i).mem = (slotOf other i).mem) ∧
    (∀ i : Nat, i < decl.length → (slotOf other i).status = Status.Initial →
      (slotOf (assignLoop decl p other) i).status = Status.Initial ∧
      ((slotOf p i).status ≠ Status.Initial →
        slotOf (assignLoop decl p other) i = emptySlot)) ∧
    (p.ready = true → (assignLoop decl p other).ready = false →
      assignPalette decl p other = finalize decl (assignLoop decl p other)) := by
  have hmain : ∀ i : Nat, i < decl.length →
      slotOf (assignLoop decl p other) i =
        slotOf (assignStep (assignAll other i 0 p) other i) i := by
    intro i hi
    unfold assignLoop
    rw [show decl.length = i + (1 + (decl.length - i - 1)) by omega,
      assignAll_split, assignAll_split,
      slotOf_assignAll_lt other (decl.length - i - 1) i (0 + i + 1) _ (by omega)]
    show slotOf (assignAll other 1 (0 + i) (assignAll other i 0 p)) i = _
    rw [Nat.zero_add]
    rfl
  have hpre : ∀ i : Nat, slotOf (assignAll other i 0 p) i = slotOf p i := by
    intro i
    exact slotOf_assignAll_prefix other i i 0 p (by omega)
  have hplen : ∀ i : Nat, (assignAll other i 0 p).slots.length = decl.length := by
    intro i
    rw [slots_length_assignAll]
    exact hlen
  refine ⟨?_, ?_, ?_⟩
  · intro i hi hload
    rw [hmain i hi]
    unfold assignStep
    rw [if_pos hload]
    rw [slotOf_setSlot_self _ i _ (by rw [hplen i]; omega)]
  · intro i hi hinit
    rw [hmain i hi]
    unfold assignStep
    rw [if_neg (by rw [hinit]; exact fun hcontra => Status.noConfusion hcontra)]
    by_cases hd : (slotOf p i).status = Status.Initial
    · rw [if_neg (by rw [hpre i]; simpa using hd)]
      rw [hpre i]
      exact ⟨hd, fun hcontra => absurd hd hcontra⟩
    · rw [if_pos (by rw [hpre i]; exact hd)]
      have hslot : slotOf { setSlot (assignAll other i 0 p) i ⟨Status.Initial, none⟩
          with ready := false } i = ⟨Status.Initial, none⟩ := by
        rw [slotOf_mk_ready]
        exact slotOf_setSlot_self _ i _ (by rw [hplen i]; omega)
      rw [hslot]
      exact ⟨rfl, fun _ => rfl⟩
  · intro hready hnotready
    unfold assignPalette
    rw [if_pos ⟨hready, hnotready⟩]

/-- Source palette for the C2 witness: slot 0 `Loaded`, slot 1 Uninitialized. -/
def otherC2 : Palette :=
  ⟨[⟨Status.Loaded, some ⟨9, 9, 9, 9⟩⟩, emptySlot], true⟩

/-- Destination palette for the C2 witness: finalized, both slots `Created`. -/
def palC2 : Palette :=
  ⟨[⟨Status.Created, some ⟨17, 17, 17, 255⟩⟩, ⟨Status.Created, some ⟨34, 34, 34, 255⟩⟩],
    true⟩

theorem assign_rule_witness :
    ((slotOf (assignLoop declC1 palC2 otherC2) 0).mem = (slotOf otherC2 0).mem) ∧
    ((slotOf (assignLoop declC1 palC2 otherC2) 1).status = Status.Initial ∧
      ((slotOf palC2 1).status ≠ Status.Initial →
        slotOf (assignLoop declC1 palC2 otherC2) 1 = emptySlot)) ∧
    assignPalette declC1 palC2 otherC2 = finalize declC1 (assignLoop declC1 palC2 otherC2) :=
  ⟨(assign_rule declC1 palC2 otherC2 (by decide)).1 0 (by decide) (by decide),
   (assign_rule declC1 palC2 otherC2 (by decide)).2.1 1 (by decide) (by decide),
   (assign_rule declC1 palC2 otherC2 (by decide)).2.2 (by decide) (by decide)⟩

/-! ## Claim C3: save layout and save/load round trip -/

/-- The four bytes the generated `save()` writes for slot `i`: the channels
of `data(i)` cast to `uchar`, in order red, green, blue, alpha. -/
def saveChunk (q : Palette) (i : Nat) : List Nat :=
  let c := (slotOf q i).mem.getD ⟨0, 0, 0, 0⟩
  [c.red % 256, c.green % 256, c.blue % 256, c.alpha % 256]

theorem saveAll_succ (q : Palette) (fuel i : Nat) :
    saveAll q (fuel + 1) i = saveChunk q i ++ saveAll q fuel (i + 1) := rfl

theorem saveChunk_length (q : Palette) (i : Nat) : (saveChunk q i).length = 4 := rfl

theorem saveAll_length (q : Palette) (fuel i : Nat) :
    (saveAll q fuel i).length = 4 * fuel := by
  induction fuel generalizing i with
  | zero => rfl
  | succ n ih =>
    rw [saveAll_succ, List.length_append, saveChunk_length, ih]
    omega

/-- The 4-byte group at offset `4*j` of the `save` loop output is the chunk
of slot `i + j`. -/
theorem saveAll_drop_take (q : Palette) (fuel i j : Nat) (h : j < fuel) :
    ((saveAll q fuel i).drop (4 * j)).take 4 = saveChunk q (i + j) := by
  induction j generalizing fuel i with
  | zero =>
    match fuel, h with
    | n + 1, _ =>
      rw [saveAll_succ]
      simp only [Nat.mul_zero, List.drop_zero, Nat.add_zero]
      exact List.take_left' (saveChunk_length q i)
  | succ m ih =>
    match fuel, h with
    | n + 1, h =>
      rw [saveAll_succ,
        show 4 * (m + 1) = (saveChunk q i).length + 4 * m by rw [saveChunk_length]; ring,
        List.drop_append, ih n (i + 1) (by omega)]
      rw [show i + 1 + m = i + (m + 1) by omega]

/-- Byte `4*j + k` of the `save` loop output is byte `k` of slot `i + j`'s
chunk. -/
theorem saveAll_getD (q : Palette) (fuel i j k : Nat) (hj : j < fuel) (hk : k < 4) :
    (saveAll q fuel i).getD (4 * j + k) 0 = (saveChunk q (i + j)).getD k 0 := by
  induction j generalizing fuel i with
  | zero =>
    match fuel, hj with
    | n + 1, _ =>
      rw [saveAll_succ]
      simp only [Nat.mul_zero, Nat.zero_add, Nat.add_zero]
      simp [List.getD, List.getElem?_append_left (by rw [saveChunk_length]; omega : k < (saveChunk q i).length)]
  | succ m ih =>
    match fuel, hj with
    | n + 1, hj =>
      rw [saveAll_succ]
      have hge : (saveChunk q i).length ≤ 4 * (m + 1) + k := by
        rw [saveChunk_length]; omega
      have hstep : (saveChunk q i ++ saveAll q n (i + 1)).getD (4 * (m + 1) + k) 0 =
          (saveAll q n (i + 1)).getD (4 * (m + 1) + k - (saveChunk q i).length) 0 := by
        simp only [List.getD, List.get?_eq_getElem?, List.getElem?_append_right hge]
      rw [hstep, show 4 * (m + 1) + k - (saveChunk q i).length = 4 * m + k by
        rw [saveChunk_length]; omega]
      rw [ih n (i + 1) (by omega), show i + 1 + m = i + (m + 1) by omega]

/-- `saveAll` only depends on the byte chunks of the slots it reads. -/
theorem saveAll_congr (q1 q2 : Palette) (fuel i : Nat)
    (h : ∀ t : Nat, t < fuel → saveChunk q1 (i + t) = saveChunk q2 (i + t)) :
    saveAll q1 fuel i = saveAll q2 fuel i := by
  induction fuel generalizing i with
  | zero => rfl
  | succ n ih =>
    rw [saveAll_succ, saveAll_succ]
    have h0 : saveChunk q1 i = saveChunk q2 i := by
      have := h 0 (by omega)
      simpa using this
    rw [h0]
    rw [ih (i + 1) (fun t ht => by
      have := h (t + 1) (by omega)
      rwa [show i + (t + 1) = i + 1 + t by omega] at this)]

/-- Every byte produced by the `save` loop is below 256. -/
theorem saveAll_getD_lt (q : Palette) (fuel i j k : Nat) (hj : j < fuel) (hk : k < 4) :
    (saveAll q fuel i).getD (4 * j + k) 0 < 256 := by
  rw [saveAll_getD q fuel i j k hj hk]
  rcases (show k = 0 ∨ k = 1 ∨ k = 2 ∨ k = 3 by omega) with h | h | h | h <;>
    (subst h; simp [saveChunk, List.getD]; omega)

/-- After `load` of a full-length buffer on a fresh palette, slot `i` holds
exactly bytes `4*i .. 4*i+3` of the buffer and is `Loaded`; `finalize`
(which a subsequent `save` triggers, the `_ready` flag being still unset)
does not change any of these slots. -/
theorem slotOf_finalize_loaded (decl : List ColorSpec) (q : Palette) (i : Nat)
    (h : (slotOf q i).status ≠ Status.Initial) :
    slotOf (finalize decl q) i = slotOf q i := by
  unfold finalize
  split
  · rfl
  · rw [slotOf_computeAll_nonInitial decl decl.length i 0 _ (by rw [slotOf_mk_ready]; exact h),
      slotOf_mk_ready]

/-- Claim C3: for every palette over a declaration of `N` colours, the
buffer returned by `save()` has length exactly `4 × N`, laid out as four
bytes per colour in ascending palette-index order with channel order red,
green, blue, alpha (the 4-byte group at offset `4*i` is slot `i`'s chunk);
and `load` of that buffer on a fresh palette succeeds and a subsequent
`save()` returns a byte-identical buffer. -/
theorem save_load_roundtrip (decl : List ColorSpec) (p : Palette) :
    (save decl p).length = 4 * decl.length ∧
    (∀ i : Nat, i < decl.length →
      ((save decl p).drop (4 * i)).take 4 = saveChunk (finalize decl p) i) ∧
    (load decl (freshPalette decl.length) (save decl p)).1 = true ∧
    save decl ((load decl (freshPalette decl.length) (save decl p)).2) = save decl p := by
  have hlen : (save decl p).length = 4 * decl.length := by
    rw [save, saveAll_length]
  have hload : load decl (freshPalette decl.length) (save decl p) =
      (true, loadAll (save decl p) decl.length 0 (freshPalette decl.length)) := by
    unfold load
    rw [if_neg (by rw [hlen]; omega)]
  refine ⟨hlen, ?_, ?_, ?_⟩
  · intro i hi
    rw [save, saveAll_drop_take _ decl.length 0 i hi, Nat.zero_add]
  · rw [hload]
  · rw [hload]
    show save decl (loadAll (save decl p) decl.length 0 (freshPalette decl.length)) = _
    set q := loadAll (save decl p) decl.length 0 (freshPalette decl.length) with hq
    have hqslot : ∀ i : Nat, i < decl.length → slotOf q i =
        ⟨Status.Loaded, some ⟨(save decl p).getD (i * 4) 0, (save decl p).getD (i * 4 + 1) 0,
          (save decl p).getD (i * 4 + 2) 0, (save decl p).getD (i * 4 + 3) 0⟩⟩ := by
      intro i hi
      rw [hq]
      exact slotOf_loadAll (save decl p) decl.length i 0 (freshPalette decl.length)
        (by omega) (by omega) (by simp [freshPalette]; omega)
    rw [save]
    have hchunk : ∀ t : Nat, t < decl.length →
        saveChunk (finalize decl q) (0 + t) = saveChunk (finalize decl p) (0 + t) := by
      intro t ht
      rw [Nat.zero_add]
      have hslot : slotOf (finalize decl q) t = slotOf q t :=
        slotOf_finalize_loaded decl q t
          (by rw [hqslot t ht]; exact fun hcontra => Status.noConfusion hcontra)
      have hbyte : ∀ k : Nat, k < 4 → (save decl p).getD (t * 4 + k) 0 =
          (saveChunk (finalize decl p) t).getD k 0 := by
        intro k hk
        rw [show t * 4 + k = 4 * t + k by ring, save,
          saveAll_getD (finalize decl p) decl.length 0 t k ht hk, Nat.zero_add]
      have hlt : ∀ k : Nat, k < 4 → (save decl p).getD (t * 4 + k) 0 < 256 := by
        intro k hk
        rw [show t * 4 + k = 4 * t + k by ring, save]
        exact saveAll_getD_lt (finalize decl p) decl.length 0 t k ht hk
      rw [saveChunk, hslot, hqslot t ht]
      show [(save decl p).getD (t * 4) 0 % 256, (save decl p).getD (t * 4 + 1) 0 % 256,
        (save decl p).getD (t * 4 + 2) 0 % 256, (save decl p).getD (t * 4 + 3) 0 % 256] = _
      rw [show t * 4 = t * 4 + 0 by ring]
      rw [Nat.mod_eq_of_lt (hlt 0 (by omega)), Nat.mod_eq_of_lt (hlt 1 (by omega)),
        Nat.mod_eq_of_lt (hlt 2 (by omega)), Nat.mod_eq_of_lt (hlt 3 (by omega))]
      rw [hbyte 0 (by omega), hbyte 1 (by omega), hbyte 2 (by omega), hbyte 3 (by omega)]
      show _ = saveChunk (finalize decl p) t
      rcases hmem : (slotOf (finalize decl p) t).mem.getD ⟨0, 0, 0, 0⟩ with ⟨r, g, b, a⟩
      simp [saveChunk, hmem, List.getD]
    rw [saveAll_congr (finalize decl q) (finalize decl p) decl.length 0 hchunk]
    rfl

theorem save_load_roundtrip_witness :
    ((save declC1 palC2).drop (4 * 1)).take 4 = saveChunk (finalize declC1 palC2) 1 ∧
    save declC1 ((load declC1 (freshPalette declC1.length) (save declC1 palC2)).2) =
      save declC1 palC2 :=
  ⟨(save_load_roundtrip declC1 palC2).2.1 1 (by decide),
    (save_load_roundtrip declC1 palC2).2.2.2⟩

/-! ## Claim C6: the palette checksum is a standard CRC-32

Source side: the `Crc32Table` constructor and `hashCrc32` from the
generator ("crc32 hash, taken somewhere from the internet").  All 32-bit
arithmetic is on `Nat` with explicit `% 2 ^ 32` at the only operation that
can overflow (the left shift). -/

/-- The loop body of `Crc32Table::reflect(val, ch)`:

    result = 0;
    for (int i = 1; i < (ch + 1); ++i) {
      if (val & 1) result |= 1 << (ch - i);
      val >>= 1;
    }
The first argument is the remaining iteration count (`ch` at the start). -/
def reflectGo (ch : Nat) : Nat → Nat → Nat → Nat → Nat
  | 0, _, _, result => result
  | fuel + 1, i, val, result =>
    reflectGo ch fuel (i + 1) (val >>> 1)
      (if val &&& 1 = 1 then result ||| (1 <<< (ch - i)) else result)

/-- `Crc32Table::reflect(val, ch)`. -/
def reflect (val : Nat) (ch : Nat) : Nat := reflectGo ch ch 1 val 0

/-- The CRC-32 generator polynomial used by the table constructor. -/
def crcPoly : Nat := 0x04c11db7

/-- One iteration of the inner loop of the `Crc32Table` constructor:

    _data[i] = (_data[i] << 1) ^ (_data[i] & (1 << 31) ? poly : 0);
on `quint32`, so the shift wraps modulo `2^32`. -/
def crcTableStep (d : Nat) : Nat :=
  ((d <<< 1) % 2 ^ 32) ^^^ (if d &&& (1 <<< 31) = 0 then 0 else crcPoly)

/-- Entry `i` of the generator's `Crc32Table`:

    _data[i] = reflect(i, 8) << 24;
    for (j = 0..7) _data[i] = (_data[i] << 1) ^ (...);
    _data[i] = reflect(_data[i], 32); -/
def crcTableEntry (i : Nat) : Nat :=
  reflect (crcTableStep^[8] ((reflect i 8) <<< 24)) 32

/-- The generator's `hashCrc32(data, len)`:

    crc = 0xffffffff;
    for each byte: crc = (crc >> 8) ^ table[(crc & 0xFF) ^ buffer[i]];
    return crc ^ 0xffffffff;
(The `qint32` cast on return only reinterprets the 32-bit pattern; the
value is kept as the unsigned 32-bit pattern here.) -/
def hashCrc32 (data : List Nat) : Nat :=
  (data.foldl (fun crc b => (crc >>> 8) ^^^ crcTableEntry ((crc &&& 255) ^^^ b))
    0xffffffff) ^^^ 0xffffffff

/-! Specification side: the standard reflected (LSB-first) CRC-32 of
IEEE 802.3, written independently of the generator's table: polynomial
`0x04C11DB7` bit-reversed, one bit at a time, input and output complemented
with `0xffffffff`. -/

/-- Bit-reversal of a `width`-bit word, used to state "the reflected
polynomial" directly from `0x04C11DB7`. -/
def bitRev (width n : Nat) : Nat :=
  (List.range width).foldl
    (fun acc j => if n.testBit j then acc ||| (1 <<< (width - 1 - j)) else acc) 0

/-- The reflected IEEE 802.3 polynomial `0xEDB88320 = bitRev 32 0x04C11DB7`. -/
def crc32ReflPoly : Nat := bitRev 32 0x04c11db7

/-- One bit of the standard reflected CRC-32: shift right, and XOR the
reflected polynomial when the bit shifted out was set. -/
def crc32BitStep (c : Nat) : Nat :=
  (c >>> 1) ^^^ (if c &&& 1 = 1 then crc32ReflPoly else 0)

/-- The standard reflected CRC-32 (IEEE 802.3): initial value `0xffffffff`,
per byte XOR into the low bits then eight bit steps, final complement. -/
def crc32IEEE (data : List Nat) : Nat :=
  (data.foldl (fun crc b => crc32BitStep^[8] (crc ^^^ b)) 0xffffffff) ^^^ 0xffffffff

/-! The correctness chain: the emitted table equals eight bit-steps on the
byte (a 256-case finite check), the bit step is linear over XOR, the high
24 bits only shift, and the two per-byte updates coincide. -/

set_option maxRecDepth 8000 in
theorem crcTableEntry_eq_iter : ∀ j : Nat, j < 256 → crcTableEntry j = crc32BitStep^[8] j := by
  decide

/-- XOR on `Nat` commutes past the first argument. -/
theorem natXor_left_comm (x y z : Nat) : x ^^^ (y ^^^ z) = y ^^^ (x ^^^ z) := by
  rw [← Nat.xor_assoc, Nat.xor_comm x y, Nat.xor_assoc]

theorem crc32BitStep_xor (a b : Nat) :
    crc32BitStep (a ^^^ b) = crc32BitStep a ^^^ crc32BitStep b := by
  unfold crc32BitStep
  have hshift : (a ^^^ b) >>> 1 = (a >>> 1) ^^^ (b >>> 1) := by
    apply Nat.eq_of_testBit_eq
    intro k
    simp [Nat.testBit_shiftRight, Nat.testBit_xor]
  have hand : (a ^^^ b) &&& 1 = (a &&& 1) ^^^ (b &&& 1) := Nat.and_xor_distrib_right
  rw [hshift, hand]
  have ha : a &&& 1 = 0 ∨ a &&& 1 = 1 := by
    rw [Nat.and_one_is_mod]
    omega
  have hb : b &&& 1 = 0 ∨ b &&& 1 = 1 := by
    rw [Nat.and_one_is_mod]
    omega
  rcases ha with ha | ha <;> rcases hb with hb | hb <;>
    simp [ha, hb, Nat.xor_assoc, Nat.xor_comm, natXor_left_comm,
      Nat.xor_self, Nat.xor_zero, Nat.zero_xor]
  rw [← Nat.xor_assoc, Nat.xor_self, Nat.zero_xor]

theorem crc32BitStep_iter_xor (k a b : Nat) :
    crc32BitStep^[k] (a ^^^ b) = crc32BitStep^[k] a ^^^ crc32BitStep^[k] b := by
  induction k generalizing a b with
  | zero => rfl
  | succ n ih =>
    rw [Function.iterate_succ_apply, Function.iterate_succ_apply,
      Function.iterate_succ_apply, crc32BitStep_xor, ih]

theorem crc32BitStep_shiftLeft (x k : Nat) :
    crc32BitStep (x <<< (k + 1)) = x <<< k := by
  unfold crc32BitStep
  have heven : x <<< (k + 1) &&& 1 = 0 := by
    rw [Nat.and_one_is_mod, Nat.shiftLeft_eq, pow_succ, ← Nat.mul_assoc]
    exact Nat.mul_mod_left _ _
  rw [heven]
  simp only [if_neg (by omega : ¬(0 : Nat) = 1), Nat.xor_zero]
  rw [Nat.shiftLeft_eq, Nat.shiftLeft_eq, Nat.shiftRight_eq_div_pow, pow_succ,
    ← Nat.mul_assoc, pow_one]
  exact Nat.mul_div_cancel _ (by omega)

theorem crc32BitStep_iter_shiftLeft (x k : Nat) :
    crc32BitStep^[k] (x <<< k) = x := by
  induction k generalizing x with
  | zero =>
    show crc32BitStep^[0] (x <<< 0) = x
    rw [Nat.shiftLeft_zero]
    rfl
  | succ n ih =>
    rw [Function.iterate_succ_apply, crc32BitStep_shiftLeft, ih]

theorem xor_decompose (c : Nat) : ((c >>> 8) <<< 8) ^^^ (c &&& 255) = c := by
  apply Nat.eq_of_testBit_eq
  intro k
  have h255 : (255 : Nat).testBit k = decide (k < 8) := by
    rw [show (255 : Nat) = 2 ^ 8 - 1 by norm_num, Nat.testBit_two_pow_sub_one]
  rw [Nat.testBit_xor, Nat.testBit_shiftLeft, Nat.testBit_and, h255,
    Nat.testBit_shiftRight]
  by_cases hk : k < 8
  · have h8f : decide (8 ≤ k) = false := decide_eq_false (by omega)
    have hkt : decide (k < 8) = true := decide_eq_true hk
    rw [h8f, hkt]
    simp
  · have h8t : decide (8 ≤ k) = true := decide_eq_true (by omega)
    have hkf : decide (k < 8) = false := decide_eq_false hk
    rw [h8t, hkf, show 8 + (k - 8) = k by omega]
    simp

/-- The generated table-driven per-byte update equals eight steps of the
standard bitwise update, for bytes. -/
theorem tableStep_eq_bitStep (c b : Nat) (hb : b < 256) :
    (c >>> 8) ^^^ crcTableEntry ((c &&& 255) ^^^ b) = crc32BitStep^[8] (c ^^^ b) := by
  have hlo : (c &&& 255) ^^^ b < 256 := by
    have h1 : c &&& 255 < 2 ^ 8 := by
      have := Nat.and_le_right (n := c) (m := 255)
      omega
    exact Nat.xor_lt_two_pow h1 (by omega)
  have hc : c ^^^ b = ((c >>> 8) <<< 8) ^^^ ((c &&& 255) ^^^ b) := by
    rw [← Nat.xor_assoc, xor_decompose]
  rw [hc, crc32BitStep_iter_xor, crc32BitStep_iter_shiftLeft,
    crcTableEntry_eq_iter _ hlo]

/-- The generator's `hashCrc32` computes exactly the standard reflected
CRC-32 on any byte string. -/
theorem hashCrc32_eq_crc32IEEE (data : List Nat) (h : ∀ b ∈ data, b < 256) :
    hashCrc32 data = crc32IEEE data := by
  unfold hashCrc32 crc32IEEE
  have hfold : ∀ l : List Nat, (∀ b ∈ l, b < 256) → ∀ c : Nat,
      l.foldl (fun crc b => (crc >>> 8) ^^^ crcTableEntry ((crc &&& 255) ^^^ b)) c =
      l.foldl (fun crc b => crc32BitStep^[8] (crc ^^^ b)) c := by
    intro l hl
    induction l with
    | nil => intro c; rfl
    | cons x xs ih =>
      intro c
      rw [List.foldl_cons, List.foldl_cons,
        tableStep_eq_bitStep c x (hl x (by simp))]
      exact ih (fun b hb => hl b (by simp [hb])) _
  rw [hfold data h]

/-! The checksum string built by `Generator::writeSetPaletteColor`: the
concatenation, in declaration order, of `'&' + name + ':' +
valueAssignmentCode(value)` over all palette colour variables, as bytes. -/

/-- The loop of decimal rendering (`QString::arg(int)` for a non-negative
value): produce the ASCII digits most significant first. -/
def decimalGo : Nat → Nat → List Nat → List Nat
  | 0, _, acc => acc
  | fuel + 1, n, acc =>
    if n < 10 then (48 + n % 10) :: acc
    else decimalGo fuel (n / 10) ((48 + n % 10) :: acc)

/-- ASCII decimal rendering of a natural number. -/
def decimalBytes (n : Nat) : List Nat := decimalGo (n + 1) n []

/-- `valueAssignmentCode` for a `Color` value: either
`"st::" + name + ".clone()"` for an alias (`copyOf` non-empty; copying is
disabled for colours so a `.clone()` call is emitted), or the aggregate
literal with the four channels in decimal, as produced by
`QString("{ %1, %2, %3, %4 }")` (bytes 123/125 are the braces, 44 the
comma, 32 the space). -/
def colorAssignmentBytes (copyOfName : Option (List Nat)) (c : ColorData) : List Nat :=
  match copyOfName with
  | some nm => [115, 116, 58, 58] ++ nm ++ [46, 99, 108, 111, 110, 101, 40, 41]
  | none =>
    [123, 32] ++ decimalBytes c.red ++ [44, 32] ++ decimalBytes c.green ++ [44, 32] ++
      decimalBytes c.blue ++ [44, 32] ++ decimalBytes c.alpha ++ [32, 125]

/-- The bytes appended to `checksumString` for one colour variable:
`'&' + name + ':' + valueAssignmentCode(value)` (38 is `&`, 58 is `:`). -/
def checksumEntryBytes (spec : ColorSpec) : List Nat :=
  38 :: (spec.name ++ (58 :: colorAssignmentBytes spec.copyOfName spec.value))

/-- The whole `checksumString` of the palette, in declaration order. -/
def checksumBytes (decl : List ColorSpec) : List Nat :=
  decl.flatMap checksumEntryBytes

/-- The emitted `palette::Checksum()` constant:
`hashCrc32(checksumString.constData(), checksumString.size())`. -/
def paletteChecksum (decl : List ColorSpec) : Nat :=
  hashCrc32 (checksumBytes decl)

/-- Claim C6: the emitted palette checksum equals the standard reflected
IEEE 802.3 CRC-32 (polynomial `0x04C11DB7` bit-reversed, table-driven
implementation agreeing with the bit-at-a-time definition, input and
output complemented with `0xffffffff`) of the byte string obtained by
concatenating `"&" + name + ":" + assignmentLiteral(value)` over all
palette colour variables in declaration order. -/
theorem checksum_is_crc32 (decl : List ColorSpec)
    (h : ∀ b ∈ checksumBytes decl, b < 256) :
    paletteChecksum decl = crc32IEEE (checksumBytes decl) :=
  hashCrc32_eq_crc32IEEE (checksumBytes decl) h

/-- A two-colour palette: `a = { 255, 0, 128, 255 }` and an alias colour
`b = a`. -/
def declC6 : List ColorSpec :=
  [⟨[97], none, -1, ⟨255, 0, 128, 255⟩⟩,
   ⟨[98], some [97], 0, ⟨255, 0, 128, 255⟩⟩]

theorem checksum_is_crc32_witness :
    paletteChecksum declC6 = crc32IEEE (checksumBytes declC6) :=
  checksum_is_crc32 declC6 (by decide)

/-! ## Claim C8: the unique-resource collector keys pixels by signed value

The value model needed by `Generator::collectUniqueValues`: a parsed
`structure::Value` is an optional `copyOf` alias name (a `FullName`, i.e. a
list of name segments) together with a tagged payload.  `Struct` payloads
whose `Fields()` returned null are a distinct constructor (`structvNull`),
as the collector fails on them.  Icon parts keep the members the collector
reads: the filename and the two offset components (`part.offset.Point()`). -/

/-- One `structure::data::monoicon` part, restricted to the members the
collector and the claims use. -/
structure IconPart where
  filename : List Nat
  offsetX : Int
  offsetY : Int
deriving DecidableEq

mutual
inductive SValue where
  | mk (copy : List (List Nat)) (payload : SPayload)
inductive SPayload where
  | invalid
  | intv (v : Int)
  | doublev
  | stringv (s : List Nat)
  | colorv (c : ColorData)
  | cursorv (s : List Nat)
  | alignv (s : List Nat)
  | pixels (v : Int)
  | point (x y : Int)
  | sizev (w h : Int)
  | margins (l t r b : Int)
  | font (fsize : Int) (family : List Nat)
  | icon (parts : List IconPart)
  | structvNull
  | structv (fields : SFields)
inductive SFields where
  | nil
  | cons (value : SValue) (tail : SFields)
end

/-- The generator state accumulated by `collectUniqueValues`: `pxValues_`
(a `QMap<int, bool>`, i.e. an int-keyed set, kept sorted ascending here as
the `QMap` does), `fontFamilies_` and `iconMasks_` with their running
1-based indices.  The name-sorted iteration order of the two string maps is
not modelled (no claim depends on it); they are kept as association lists
in insertion order. -/
structure CollectState where
  pxValues : List Int
  fontFamilies : List (List Nat × Nat)
  iconMasks : List (List Nat × Nat)
  fontFamilyIndex : Nat
  iconMaskIndex : Nat
deriving DecidableEq

/-- `pxValues_.insert(v, true)`: keyed insertion into the sorted int map;
inserting an existing key leaves the key set unchanged. -/
def pxInsert (v : Int) : List Int → List Int
  | [] => [v]
  | x :: xs =>
    if v < x then v :: x :: xs
    else if v = x then x :: xs
    else x :: pxInsert v xs

/-- The icon branch of the collector:

    for (auto &part : v.parts) {
      pxValues_.insert(part.offset.Point().x, true);
      pxValues_.insert(part.offset.Point().y, true);
      if (!iconMasks_.contains(part.filename)) {
        iconMasks_.insert(part.filename, ++iconMaskIndex);
      }
    } -/
def collectIconParts : List IconPart → CollectState → CollectState
  | [], st => st
  | part :: rest, st =>
    let st1 := { st with
      pxValues := pxInsert part.offsetY (pxInsert part.offsetX st.pxValues) }
    let st2 :=
      if st1.iconMasks.any (fun e => e.1 = part.filename) then st1
      else { st1 with
        iconMasks := st1.iconMasks ++ [(part.filename, st1.iconMaskIndex + 1)],
        iconMaskIndex := st1.iconMaskIndex + 1 }
    collectIconParts rest st2

mutual
/-- The collector lambda of `Generator::collectUniqueValues`, applied to one
variable's value.  `none` models `return false` (collection failure). -/
def collectVal : SValue → CollectState → Option CollectState
  | .mk copy payload, st =>
    if copy ≠ [] then some st
    else collectPayload payload st

/-- The `switch (value.type().tag)` of the collector. -/
def collectPayload : SPayload → CollectState → Option CollectState
  | .invalid, st => some st
  | .intv _, st => some st
  | .doublev, st => some st
  | .stringv _, st => some st
  | .colorv _, st => some st
  | .cursorv _, st => some st
  | .alignv _, st => some st
  | .pixels v, st => some { st with pxValues := pxInsert v st.pxValues }
  | .point x y, st =>
    some { st with pxValues := pxInsert y (pxInsert x st.pxValues) }
  | .sizev w h, st =>
    some { st with pxValues := pxInsert h (pxInsert w st.pxValues) }
  | .margins l t r b, st =>
    some { st with
      pxValues := pxInsert b (pxInsert r (pxInsert t (pxInsert l st.pxValues))) }
  | .font fsize family, st =>
    let st1 := { st with pxValues := pxInsert fsize st.pxValues }
    some (if family ≠ [] ∧ st1.fontFamilies.all (fun e => ¬ e.1 = family) then
      { st1 with
        fontFamilies := st1.fontFamilies ++ [(family, st1.fontFamilyIndex + 1)],
        fontFamilyIndex := st1.fontFamilyIndex + 1 }
    else st1)
  | .icon parts, st => some (collectIconParts parts st)
  | .structvNull, _ => none
  | .structv fields, st => collectFields fields st

/-- The Struct branch: collect every field, aborting on the first failure. -/
def collectFields : SFields → CollectState → Option CollectState
  | .nil, st => some st
  | .cons v vs, st =>
    match collectVal v st with
    | none => none
    | some st1 => collectFields vs st1
end

/-- The initial (empty) collector state. -/
def initialCollectState : CollectState := ⟨[], [], [], 0, 0⟩

/-- `module_.enumVariables(collector)`: fold the collector over the
module's variables in declaration order, aborting on the first failure. -/
def collectVars : List SValue → CollectState → Option CollectState
  | [], st => some st
  | v :: vs, st =>
    match collectVal v st with
    | none => none
    | some st1 => collectVars vs st1

/-- `Generator::collectUniqueValues()` for a module given as the list of
its variables' values. -/
def collectUniqueValues (vars : List SValue) : Option CollectState :=
  collectVars vars initialCollectState

/-! The flat (non-deduplicating) enumeration of the pixel quantities the
collector visits, in the same traversal order with the same skip/failure
behaviour; the claim's "occurrences". -/

mutual
def occVal : SValue → Option (List Int)
  | .mk copy payload => if copy ≠ [] then some [] else occPayload payload
def occPayload : SPayload → Option (List Int)
  | .invalid => some []
  | .intv _ => some []
  | .doublev => some []
  | .stringv _ => some []
  | .colorv _ => some []
  | .cursorv _ => some []
  | .alignv _ => some []
  | .pixels v => some [v]
  | .point x y => some [x, y]
  | .sizev w h => some [w, h]
  | .margins l t r b => some [l, t, r, b]
  | .font fsize _ => some [fsize]
  | .icon parts => some (parts.flatMap (fun part => [part.offsetX, part.offsetY]))
  | .structvNull => none
  | .structv fields => occFields fields
def occFields : SFields → Option (List Int)
  | .nil => some []
  | .cons v vs =>
    match occVal v, occFields vs with
    | some a, some b => some (a ++ b)
    | _, _ => none
end

/-- The flat pixel occurrence list of a whole module. -/
def occVars : List SValue → Option (List Int)
  | [] => some []
  | v :: vs =>
    match occVal v, occVars vs with
    | some a, some b => some (a ++ b)
    | _, _ => none

/-! Set lemmas for `pxInsert`.  The `QMap` keeps its integer keys strictly
sorted ascending; `pxInsert` preserves that invariant, which gives the
no-duplicates property. -/

theorem pxInsert_mem (v x : Int) (l : List Int) :
    x ∈ pxInsert v l ↔ x = v ∨ x ∈ l := by
  induction l with
  | nil => simp [pxInsert]
  | cons y ys ih =>
    unfold pxInsert
    by_cases h1 : v < y
    · rw [if_pos h1]
      simp
    · rw [if_neg h1]
      by_cases h2 : v = y
      · rw [if_pos h2]
        subst h2
        simp
      · rw [if_neg h2]
        simp only [List.mem_cons, ih]
        tauto

theorem pxInsert_sorted (v : Int) (l : List Int) (h : l.Sorted (· < ·)) :
    (pxInsert v l).Sorted (· < ·) := by
  induction l with
  | nil => simp [pxInsert]
  | cons y ys ih =>
    rcases List.sorted_cons.mp h with ⟨hy, hys⟩
    unfold pxInsert
    by_cases h1 : v < y
    · rw [if_pos h1]
      refine List.sorted_cons.mpr ⟨?_, h⟩
      intro b hb
      rcases List.mem_cons.mp hb with rfl | hb2
      · exact h1
      · exact lt_trans h1 (hy b hb2)
    · rw [if_neg h1]
      by_cases h2 : v = y
      · rw [if_pos h2]
        exact h
      · rw [if_neg h2]
        refine List.sorted_cons.mpr ⟨?_, ih hys⟩
        intro b hb
        rcases (pxInsert_mem v b ys).mp hb with rfl | hb2
        · omega
        · exact hy b hb2

/-- Folding `pxInsert` over a list of occurrences. -/
def pxFold (px : List Int) (os : List Int) : List Int :=
  os.foldl (fun l x => pxInsert x l) px

theorem pxFold_sorted (px os : List Int) (h : px.Sorted (· < ·)) :
    (pxFold px os).Sorted (· < ·) := by
  induction os generalizing px with
  | nil => exact h
  | cons x xs ih => exact ih (pxInsert x px) (pxInsert_sorted x px h)

theorem pxFold_mem (px os : List Int) (x : Int) :
    x ∈ pxFold px os ↔ x ∈ px ∨ x ∈ os := by
  induction os generalizing px with
  | nil => simp [pxFold]
  | cons y ys ih =>
    show x ∈ pxFold (pxInsert y px) ys ↔ _
    rw [ih, pxInsert_mem]
    simp only [List.mem_cons]
    tauto

theorem pxFold_append (px a b : List Int) :
    pxFold px (a ++ b) = pxFold (pxFold px a) b := by
  unfold pxFold
  rw [List.foldl_append]

/-- A strictly sorted list has no duplicates. -/
theorem sorted_lt_nodup (l : List Int) (h : l.Sorted (· < ·)) : l.Nodup := by
  induction l with
  | nil => exact List.nodup_nil
  | cons y ys ih =>
    rcases List.sorted_cons.mp h with ⟨hy, hys⟩
    refine List.nodup_cons.mpr ⟨?_, ih hys⟩
    intro hmem
    exact absurd (hy y hmem) (lt_irrefl y)

/-! The collector only extends `pxValues` by folding in the occurrences,
and fails exactly when the occurrence enumeration fails. -/

/-- Relation between a collector result and an occurrence result. -/
def pxRel : Option CollectState → Option (List Int) → List Int → Prop
  | none, none, _ => True
  | some st2, some os, px => st2.pxValues = pxFold px os
  | _, _, _ => False

theorem collectIconParts_px (parts : List IconPart) (st : CollectState) :
    (collectIconParts parts st).pxValues =
      pxFold st.pxValues (parts.flatMap (fun part => [part.offsetX, part.offsetY])) := by
  induction parts generalizing st with
  | nil => rfl
  | cons part rest ih =>
    unfold collectIconParts
    rw [ih, List.flatMap_cons, pxFold_append]
    congr 1
    split <;> rfl

mutual
theorem collectVal_px (v : SValue) (st : CollectState) :
    pxRel (collectVal v st) (occVal v) st.pxValues :=
  match v with
  | .mk copy payload => by
    unfold collectVal occVal
    by_cases h : copy ≠ []
    · rw [if_pos h, if_pos h]
      show st.pxValues = pxFold st.pxValues []
      rfl
    · rw [if_neg h, if_neg h]
      exact collectPayload_px payload st

theorem collectPayload_px (p : SPayload) (st : CollectState) :
    pxRel (collectPayload p st) (occPayload p) st.pxValues :=
  match p with
  | .invalid => rfl
  | .intv _ => rfl
  | .doublev => rfl
  | .stringv _ => rfl
  | .colorv _ => rfl
  | .cursorv _ => rfl
  | .alignv _ => rfl
  | .pixels _ => rfl
  | .point _ _ => rfl
  | .sizev _ _ => rfl
  | .margins _ _ _ _ => rfl
  | .font fsize family => by
    simp only [collectPayload, occPayload, pxRel]
    split <;> rfl
  | .icon parts => collectIconParts_px parts st
  | .structvNull => trivial
  | .structv fields => collectFields_px fields st

theorem collectFields_px (fs : SFields) (st : CollectState) :
    pxRel (collectFields fs st) (occFields fs) st.pxValues :=
  match fs with
  | .nil => rfl
  | .cons v vs => by
    have h1 := collectVal_px v st
    have e0 : collectFields (SFields.cons v vs) st =
        (match collectVal v st with
          | none => none
          | some st1 => collectFields vs st1) := rfl
    have f0 : occFields (SFields.cons v vs) =
        (match occVal v, occFields vs with
          | some a, some b => some (a ++ b)
          | _, _ => none) := rfl
    rcases hc : collectVal v st with _ | st1 <;> rw [hc] at h1
    · rcases ho : occVal v with _ | os <;> rw [ho] at h1
      · have e1 : collectFields (SFields.cons v vs) st = none := by rw [e0, hc]
        have f1 : occFields (SFields.cons v vs) = none := by rw [f0, ho]
        rw [e1, f1]
        trivial
      · exact absurd h1 (by simp [pxRel])
    · rcases ho : occVal v with _ | os <;> rw [ho] at h1
      · exact absurd h1 (by simp [pxRel])
      · have h2 := collectFields_px vs st1
        rcases hc2 : collectFields vs st1 with _ | st2 <;> rw [hc2] at h2
        · rcases ho2 : occFields vs with _ | os2 <;> rw [ho2] at h2
          · have e1 : collectFields (SFields.cons v vs) st = none := by
              rw [e0, hc]
              exact hc2
            have f1 : occFields (SFields.cons v vs) = none := by rw [f0, ho, ho2]
            rw [e1, f1]
            trivial
          · exact absurd h2 (by simp [pxRel])
        · rcases ho2 : occFields vs with _ | os2 <;> rw [ho2] at h2
          · exact absurd h2 (by simp [pxRel])
          · have e1 : collectFields (SFields.cons v vs) st = some st2 := by
              rw [e0, hc]
              exact hc2
            have f1 : occFields (SFields.cons v vs) = some (os ++ os2) := by
              rw [f0, ho, ho2]
            rw [e1, f1]
            show st2.pxValues = pxFold st.pxValues (os ++ os2)
            rw [pxFold_append, ← h1]
            exact h2
end

theorem collectVars_px (vs : List SValue) (st : CollectState) :
    pxRel (collectVars vs st) (occVars vs) st.pxValues := by
  induction vs generalizing st with
  | nil => rfl
  | cons v rest ih =>
    have h1 := collectVal_px v st
    have e0 : collectVars (v :: rest) st =
        (match collectVal v st with
          | none => none
          | some st1 => collectVars rest st1) := rfl
    have f0 : occVars (v :: rest) =
        (match occVal v, occVars rest with
          | some a, some b => some (a ++ b)
          | _, _ => none) := rfl
    rcases hc : collectVal v st with _ | st1 <;> rw [hc] at h1
    · rcases ho : occVal v with _ | os <;> rw [ho] at h1
      · have e1 : collectVars (v :: rest) st = none := by rw [e0, hc]
        have f1 : occVars (v :: rest) = none := by rw [f0, ho]
        rw [e1, f1]
        trivial
      · exact absurd h1 (by simp [pxRel])
    · rcases ho : occVal v with _ | os <;> rw [ho] at h1
      · exact absurd h1 (by simp [pxRel])
      · have h2 := ih st1
        rcases hc2 : collectVars rest st1 with _ | st2 <;> rw [hc2] at h2
        · rcases ho2 : occVars rest with _ | os2 <;> rw [ho2] at h2
          · have e1 : collectVars (v :: rest) st = none := by
              rw [e0, hc]
              exact hc2
            have f1 : occVars (v :: rest) = none := by rw [f0, ho, ho2]
            rw [e1, f1]
            trivial
          · exact absurd h2 (by simp [pxRel])
        · rcases ho2 : occVars rest with _ | os2 <;> rw [ho2] at h2
          · exact absurd h2 (by simp [pxRel])
          · have e1 : collectVars (v :: rest) st = some st2 := by
              rw [e0, hc]
              exact hc2
            have f1 : occVars (v :: rest) = some (os ++ os2) := by rw [f0, ho, ho2]
            rw [e1, f1]
            show st2.pxValues = pxFold st.pxValues (os ++ os2)
            rw [pxFold_append, ← h1]
            exact h2


/-! `pxValueName` and distinctness of the generated constants. -/

/-- `pxValueName(int value)`:

    QString result = "px";
    if (value < 0) { value = -value; result += 'm'; }
    return result + QString::number(value);
(112 is `p`, 120 is `x`, 109 is `m`.) -/
def pxValueName (value : Int) : List Nat :=
  if value < 0 then [112, 120, 109] ++ decimalBytes (-value).toNat
  else [112, 120] ++ decimalBytes value.toNat

/-- Decimal rendering always starts with an ASCII digit. -/
theorem decimalGo_head (fuel n : Nat) (acc : List Nat) :
    ∃ d rest, decimalGo (fuel + 1) n acc = d :: rest ∧ 48 ≤ d ∧ d ≤ 57 := by
  induction fuel generalizing n acc with
  | zero =>
    unfold decimalGo
    by_cases h : n < 10
    · rw [if_pos h]
      exact ⟨48 + n % 10, acc, rfl, by omega, by omega⟩
    · rw [if_neg h]
      unfold decimalGo
      exact ⟨48 + n % 10, acc, rfl, by omega, by omega⟩
  | succ m ih =>
    unfold decimalGo
    by_cases h : n < 10
    · rw [if_pos h]
      exact ⟨48 + n % 10, acc, rfl, by omega, by omega⟩
    · rw [if_neg h]
      exact ih (n / 10) _

theorem decimalBytes_head (n : Nat) :
    ∃ d rest, decimalBytes n = d :: rest ∧ 48 ≤ d ∧ d ≤ 57 :=
  decimalGo_head n n []

/-- The generated constants for `v` and `-v` have different names: the
negated constant has an `m` (109) at position 2 where the positive one has
its leading decimal digit. -/
theorem pxValueName_sign_distinct (v : Int) (hv : 0 < v) :
    pxValueName v ≠ pxValueName (-v) := by
  intro h
  unfold pxValueName at h
  rw [if_neg (by omega), if_pos (by omega)] at h
  rcases decimalBytes_head v.toNat with ⟨d, rest, hd, hlo, hhi⟩
  rw [hd] at h
  have h2 : (([112, 120] ++ (d :: rest)).getD 2 0) =
      (([112, 120, 109] ++ decimalBytes (- -v).toNat).getD 2 0) := by
    rw [h]
  simp [List.getD] at h2
  omega

/-- Claim C8: a successful collection produces, for the module's pixel
quantities, exactly one entry per distinct signed value (`pxValues` has no
duplicates and contains precisely the values occurring in the module, from
`Pixels`, `Point`, `Size`, `Margins`, `Font.size` and icon part offsets,
aliases excluded); and the constants generated for a value and its
negation are distinct. -/
theorem collect_px_dedup (vars : List SValue) (st : CollectState)
    (h : collectUniqueValues vars = some st) :
    st.pxValues.Nodup ∧
    (∃ occs : List Int, occVars vars = some occs ∧
      ∀ x : Int, x ∈ st.pxValues ↔ x ∈ occs) ∧
    (∀ v : Int, 0 < v → pxValueName v ≠ pxValueName (-v)) := by
  have h1 := collectVars_px vars initialCollectState
  rw [show collectVars vars initialCollectState = some st from h] at h1
  rcases ho : occVars vars with _ | os
  · rw [ho] at h1
    exact absurd h1 (by simp [pxRel])
  · rw [ho] at h1
    have hpx : st.pxValues = pxFold [] os := h1
    refine ⟨?_, ⟨os, rfl, ?_⟩, fun v hv => pxValueName_sign_distinct v hv⟩
    · rw [hpx]
      exact sorted_lt_nodup _ (pxFold_sorted [] os List.sorted_nil)
    · intro x
      rw [hpx, pxFold_mem]
      simp

/-- A module with three variables: two `Pixels` values `12` (deduplicated)
and one `Pixels` value `-12`. -/
def varsC8 : List SValue :=
  [.mk [] (.pixels 12), .mk [] (.pixels 12), .mk [] (.pixels (-12))]

/-- The collected state of `varsC8`. -/
def stC8 : CollectState := ⟨[-12, 12], [], [], 0, 0⟩

theorem collect_px_dedup_witness :
    stC8.pxValues.Nodup ∧
    (∃ occs : List Int, occVars varsC8 = some occs ∧
      ∀ x : Int, x ∈ stC8.pxValues ↔ x ∈ occs) ∧
    (∀ v : Int, 0 < v → pxValueName v ≠ pxValueName (-v)) :=
  collect_px_dedup varsC8 stC8 (by decide)

/-! ## Claim C9: icon atlas composition

`iconMaskValuePng` loads a base (100%) and a double (200%) image, checks
the format and exact-double dimensions, applies the modifiers, resamples
125% and 150% variants, and composes the canvas sized
`(width_200 + width_100) × (height_200 + height_150)`.  We model an image
by its dimensions and pixel format (`none` for a failed load), a modifier
by whether `GetModifier` resolved it, and the composed result by the
canvas dimensions (`none` for the empty error `QByteArray`); pixel
contents and PNG encoding are outside the claims. -/

/-- An in-memory `QImage`: dimensions and pixel format identifier. -/
structure Img where
  width : Nat
  height : Nat
  format : Nat
deriving DecidableEq

/-- Modelled from the spec: the external pixel-scale function
`structure::data::pxAdjust(value, scale)` (declared outside this file's
sources; §6 calls it a sign-preserving `adjust(baseValue, scaleFactor)` and
§8 fixes `adjust(10, 150%) = round(10 × 1.5) = 15`).  Scale argument `5`
means 125% and `6` means 150%, as passed at the `png125x`/`png150x` call
sites; the value is rounded to the nearest integer, halves away from
zero. -/
def pxAdjust (value : Int) (scale : Nat) : Int :=
  let percent : Int := if scale = 5 then 125 else if scale = 6 then 150 else 100
  if value < 0 then -(((-value) * percent + 50) / 100)
  else (value * percent + 50) / 100

/-- `iconMaskValuePng`, reduced to the data the claims are about: the two
loaded images, the resolution status of each listed modifier, and the
composed canvas dimensions.

    if (png100x.isNull()) ... return result;  // empty
    if (png200x.isNull()) ... return result;
    if (png100x.format() != png200x.format()) ... return result;
    if (png100x.width() * 2 != png200x.width()
        || png100x.height() * 2 != png200x.height()) ... return result;
    for (auto modifierName : modifiers) { if (!GetModifier(...)) return result; ... }
    png150x = png200x.scaled(pxAdjust(w, 6), pxAdjust(h, 6), ...);
    QImage composed(png200x.width() + png100x.width(),
                    png200x.height() + png150x.height(), format); -/
def iconMaskValuePng (png100x png200x : Option Img) (modifiers : List Bool) :
    Option (Nat × Nat) :=
  match png100x, png200x with
  | none, _ => none
  | _, none => none
  | some base, some dbl =>
    if base.format ≠ dbl.format then none
    else if base.width * 2 ≠ dbl.width ∨ base.height * 2 ≠ dbl.height then none
    else if modifiers.any (fun registered => !registered) then none
    else some (dbl.width + base.width, dbl.height + (pxAdjust base.height 6).toNat)

/-- Claim C9: for every base image of size `W × H` and double image of
size exactly `2W × 2H` in the same pixel format, the composed canvas is
exactly `(2W + W)` wide and `(2H + height_150)` tall with `height_150` the
150%-scaled base height; and whenever the double image's dimensions are
not exactly twice the base's in each axis independently, composition fails
with no output. -/
theorem icon_compose_rule (W H fmt : Nat) :
    iconMaskValuePng (some ⟨W, H, fmt⟩) (some ⟨2 * W, 2 * H, fmt⟩) [] =
      some (2 * W + W, 2 * H + (pxAdjust (H : Int) 6).toNat) ∧
    (∀ W2 H2 : Nat, W2 ≠ 2 * W ∨ H2 ≠ 2 * H →
      iconMaskValuePng (some ⟨W, H, fmt⟩) (some ⟨W2, H2, fmt⟩) [] = none) := by
  constructor
  · show (if (fmt ≠ fmt) then none else _) = _
    rw [if_neg (by omega : ¬fmt ≠ fmt)]
    rw [if_neg (by omega : ¬(W * 2 ≠ 2 * W ∨ H * 2 ≠ 2 * H))]
    rfl
  · intro W2 H2 hne
    show (if (fmt ≠ fmt) then none else _) = _
    rw [if_neg (by omega : ¬fmt ≠ fmt)]
    rw [if_pos (by omega : W * 2 ≠ W2 ∨ H * 2 ≠ H2)]

/-- The document's concrete example: a 10×10 base with a 20×20 double
composes to a 30×35 canvas (`height_150 = 15`), and a 19×20 double image
fails. -/
theorem icon_compose_rule_witness :
    iconMaskValuePng (some ⟨10, 10, 3⟩) (some ⟨20, 20, 3⟩) [] = some (30, 35) ∧
    iconMaskValuePng (some ⟨10, 10, 3⟩) (some ⟨19, 20, 3⟩) [] = none :=
  ⟨by
    have h := (icon_compose_rule 10 10 3).1
    rw [h]
    rfl,
   (icon_compose_rule 10 10 3).2 19 20 (by omega)⟩

/-! ## Claim C7: the generated `getPaletteIndex` name matcher

`Generator::writeSetPaletteColor` emits the matcher as C++ text: nested
`if (size > k) switch (data[k]) { case 'c': ... };` blocks with `return`
statements at the leaves and a final `return -1;`.  We mirror the emission
loop token-for-token (a token stream instead of a character stream; the
`tabs` variable only produces whitespace and is dropped), and give the
token stream the C++ statement semantics: a `switch` jumps to its matching
`case` label or past its closing brace; `case` labels are transparent to
sequential execution (so control can fall through them); every emitted
`return` statement ends execution. -/

/-- One emitted statement/label of the generated matcher body. -/
inductive Tok where
  /-- `if (size > pos) switch (data[pos]) {` -/
  | openSwitch (pos : Nat)
  /-- `case 'c':` -/
  | caseLabel (c : Nat)
  /-- `};` -/
  | close
  /-- `if (size == guard)`-prefixed (when `guard` is set) statement
  `return (size == sizeCheck && !memcmp(data + off, suffix, len)) ? idx : -1;`
  with the `size ==` conjunct present only when `sizeCheck` is set and the
  `memcmp` conjunct only when `cmp = some (off, suffix)`. -/
  | ret (guard : Option Nat) (sizeCheck : Option Nat) (cmp : Option (Nat × List Nat))
      (idx : Nat)
deriving DecidableEq

/-- The first `while` of the emission loop, closing switches:

    while ((prefix.size() > name.size())
        || (!prefix.isEmpty() && prefix.mid(0, already - 1) != name.mid(0, already - 1))) {
      emit "};"; prefix.chop(1); tabs.chop(1); --already;
    }
The loop runs at most `prefix.length` times (the fuel is one more). -/
def closeLoop : Nat → Nat → List Nat → List Nat → List Tok → Nat × List Nat × List Tok
  | 0, already, pfx, _, acc => (already, pfx, acc)
  | fuel + 1, already, pfx, name, acc =>
    if pfx.length > name.length ∨
        (pfx ≠ [] ∧ pfx.take (already - 1) ≠ name.take (already - 1)) then
      closeLoop fuel (already - 1) pfx.dropLast name (acc ++ [Tok.close])
    else (already, pfx, acc)

/-- The second `while` of the emission loop, descending into new switches:

    while (name.size() > already) {
      if (name.mid(0, already) != next.mid(0, already)) break;
      else if (next.size() <= already) { emit "if (size == name.size())"; break; }
      emit "if (size > already) switch (data[already]) {";
      prefix.append(name[already]); tabs.append; ++already;
      emit "case name[already-1]:";
    }
The returned `Option Nat` is the emitted size guard, if any.  `already`
grows by one per iteration and the loop stops at `name.length`, so
`name.length + 1` fuel always suffices. -/
def descendLoop : Nat → Nat → List Nat → List Nat → List Nat → List Tok →
    Nat × List Nat × Option Nat × List Tok
  | 0, already, pfx, _, _, acc => (already, pfx, none, acc)
  | fuel + 1, already, pfx, name, next, acc =>
    if name.length > already then
      if name.take already ≠ next.take already then (already, pfx, none, acc)
      else if next.length ≤ already then (already, pfx, some name.length, acc)
      else
        descendLoop fuel (already + 1) (pfx ++ [name.getD already 0]) name next
          (acc ++ [Tok.openSwitch already, Tok.caseLabel (name.getD already 0)])
    else (already, pfx, none, acc)

/-- The per-name body of the emission loop of `writeSetPaletteColor`
(iterating `paletteIndices_` in descending key order, `next` being the key
the iteration visits after the current one, or empty at the map's begin),
followed after the last name by one `"};"` per remaining `prefix`
character. -/
def genLoop : List (List Nat × Nat) → Nat → List Nat → List Tok → List Tok
  | [], _, pfx, acc => acc ++ List.replicate pfx.length Tok.close
  | (name, index) :: rest, already, pfx, acc =>
    let next := ((rest.head?).map Prod.fst).getD []
    let r1 := closeLoop (pfx.length + 1) already pfx name acc
    let a1 := r1.1
    let p1 := r1.2.1
    let acc1 := r1.2.2
    let r2 :=
      if p1 ≠ [] ∧ p1.getD (a1 - 1) 0 ≠ name.getD (a1 - 1) 0 then
        (p1.set (a1 - 1) (name.getD (a1 - 1) 0),
          acc1 ++ [Tok.caseLabel (name.getD (a1 - 1) 0)])
      else (p1, acc1)
    let r3 := descendLoop (name.length + 1) a1 r2.1 name next r2.2
    let a3 := r3.1
    let p3 := r3.2.1
    let guard := r3.2.2.1
    let acc3 := r3.2.2.2
    let sizeCheck :=
      if name.length = a3 ∨ name.take a3 ≠ next.take a3 then some name.length else none
    let cmp := if a3 ≠ name.length then some (a3, name.drop a3) else none
    genLoop rest a3 p3 (acc3 ++ [Tok.ret guard sizeCheck cmp index])

/-- Lexicographic comparison of byte strings (`QString::operator<` on the
palette names, which are ASCII). -/
def lexLtB : List Nat → List Nat → Bool
  | [], [] => false
  | [], _ :: _ => true
  | _ :: _, [] => false
  | a :: as, b :: bs => if a < b then true else if b < a then false else lexLtB as bs

def insertDesc (x : List Nat × Nat) : List (List Nat × Nat) → List (List Nat × Nat)
  | [] => [x]
  | y :: ys => if lexLtB y.1 x.1 then x :: y :: ys else y :: insertDesc x ys

/-- The descending-key iteration order of the `QMap` `paletteIndices_`. -/
def sortDesc : List (List Nat × Nat) → List (List Nat × Nat)
  | [] => []
  | x :: xs => insertDesc x (sortDesc xs)

/-- The palette's name-to-index registry in declaration order, as built by
`paletteIndices_[name] = indexInPalette++`. -/
def paletteNames (decl : List ColorSpec) : List (List Nat × Nat) :=
  decl.enum.map (fun p => (p.2.name, p.1))

/-- The token stream of the whole generated `getPaletteIndex` body. -/
def getPaletteIndexTokens (names : List (List Nat × Nat)) : List Tok :=
  genLoop (sortDesc names) 0 [] []

/-! C++ execution of the token stream. -/

/-- Skip to just past the `};` closing the switch whose body starts the
list (`d` counts switches opened while scanning). -/
def skipToClose : List Tok → Nat → List Tok
  | [], _ => []
  | Tok.close :: rest, 0 => rest
  | Tok.close :: rest, d + 1 => skipToClose rest d
  | Tok.openSwitch _ :: rest, d => skipToClose rest (d + 1)
  | Tok.caseLabel _ :: rest, d => skipToClose rest d
  | Tok.ret _ _ _ _ :: rest, d => skipToClose rest d

/-- Find `case c:` among the depth-0 labels of the switch whose body
starts the list; `none` when the switch has no such case. -/
def findCase (c : Nat) : List Tok → Nat → Option (List Tok)
  | [], _ => none
  | Tok.close :: _, 0 => none
  | Tok.close :: rest, d + 1 => findCase c rest d
  | Tok.openSwitch _ :: rest, d => findCase c rest (d + 1)
  | Tok.caseLabel c2 :: rest, 0 => if c2 = c then some rest else findCase c rest 0
  | Tok.caseLabel _ :: rest, d + 1 => findCase c rest (d + 1)
  | Tok.ret _ _ _ _ :: rest, d => findCase c rest d

/-- The parenthesised condition of an emitted `return` statement:
`size == L` when present, short-circuit `&&` with
`!memcmp(data + off, suffix, suffix.length())` when present. -/
def retCond (size : Nat) (data : List Nat) (sizeCheck : Option Nat)
    (cmp : Option (Nat × List Nat)) : Bool :=
  (match sizeCheck with
    | some L => decide (size = L)
    | none => true) &&
  (match cmp with
    | some (off, suffix) => decide ((data.drop off).take suffix.length = suffix)
    | none => true)

/-- Sequential C++ execution of the emitted statements, starting from the
current position in the token stream with `size`/`data` as in the emitted
prologue; falling off the end reaches the trailing `return -1;`.  Case
labels and closing braces are transparent to sequential execution; an
unguarded `return` always returns; a guarded one is skipped when its
`if (size == L)` is false; a `switch` jumps to its matching case or past
its closing brace (both forward), so the fuel `tokens + 1` bounds the
number of executed statements. -/
def exec (size : Nat) (data : List Nat) : Nat → List Tok → Int
  | 0, _ => -1
  | _ + 1, [] => -1
  | fuel + 1, Tok.caseLabel _ :: rest => exec size data fuel rest
  | fuel + 1, Tok.close :: rest => exec size data fuel rest
  | fuel + 1, Tok.ret guard sizeCheck cmp idx :: rest =>
    (match guard with
      | some L =>
        if size = L then (if retCond size data sizeCheck cmp then (idx : Int) else -1)
        else exec size data fuel rest
      | none => if retCond size data sizeCheck cmp then (idx : Int) else -1)
  | fuel + 1, Tok.openSwitch pos :: rest =>
    if size > pos then
      match findCase (data.getD pos 0) rest 0 with
      | some cont => exec size data fuel cont
      | none => exec size data fuel (skipToClose rest 0)
    else exec size data fuel (skipToClose rest 0)

/-- The generated `getPaletteIndex(name)` applied to an input byte string. -/
def getPaletteIndex (names : List (List Nat × Nat)) (input : List Nat) : Int :=
  let toks := getPaletteIndexTokens names
  exec input.length input (toks.length + 1) toks

/-- A three-colour palette registry, declaration order `x`, `ya`, `yb`
(bytes: 120 is `x`, 121 is `y`, 97/98 are `a`/`b`).  The generated matcher
for it is

    if (size > 0) switch (data[0]) {
    case 'y':
      if (size > 1) switch (data[1]) {
      case 'b': return (size == 2) ? 2 : -1;
      case 'a': return (size == 2) ? 1 : -1;
      };
    case 'x': return (size == 1) ? 0 : -1;
    };
    return -1; -/
def namesC7 : List (List Nat × Nat) := [([120], 0), ([121, 97], 1), ([121, 98], 2)]

/-- Claim C7, evaluated at the failing input: the matcher returns the
declared index for every declared name, but the undeclared input `"y"`
does not reach the `-1` outcome: after `case 'y':` the inner
`if (size > 1) switch (data[1]) { ... };` is skipped (size is 1) and,
with no `break`, control falls through into `case 'x':` whose
`return (size == 1) ? 0 : -1;` returns `0` — the index of `x`. -/
theorem getPaletteIndex_fallthrough_bug :
    getPaletteIndex namesC7 [120] = 0 ∧
    getPaletteIndex namesC7 [121, 97] = 1 ∧
    getPaletteIndex namesC7 [121, 98] = 2 ∧
    getPaletteIndex namesC7 [121] = 0 ∧
    (([121] : List Nat) ≠ [120] ∧ ([121] : List Nat) ≠ [121, 97] ∧
      ([121] : List Nat) ≠ [121, 98]) ∧
    getPaletteIndex namesC7 [121] ≠ -1 := by
  refine ⟨?_, ?_, ?_, ?_, ⟨?_, ?_, ?_⟩, ?_⟩ <;> decide

end StyleGen

